import Mathlib

/-!
Verification development for the opencode-google-antigravity-auth plugin.

The definitions below are a shallow embedding of the plugin's routing and
payload-transformation core:

* src/plugin/accounts.ts        — AccountManager (pool selection / rate limits)
* src/plugin/fetch-wrapper.ts   — endpoint-fallback loop and 429 handling
* src/plugin/transform/gemini.ts — native-family request transformer
* transform/claude.ts (the revision importing the family-keyed cache)
                                  — proxied-family request transformer
* src/plugin/request-helpers.ts / request.ts — thinking-config normalizer and
                                  usage-metadata response headers

Timestamps (Date.now()) are threaded as an explicit `now : Int` parameter;
JavaScript numbers that the code compares or adds are modelled as `Int`;
absent / non-number / non-string JSON fields are modelled as `none`.
Payload records carry exactly the fields the modelled functions read or
write; the source handles the remaining payload fields with independent
per-field statements that cannot affect these.
-/

/-- JavaScript truthiness of an optional string field: null/undefined and the
empty string are falsy. -/
def optStrTruthy : Option String → Bool
  | none => false
  | some s => !s.isEmpty

/-- JavaScript truthiness of an optional numeric field: null/undefined and 0
are falsy. -/
def optIntTruthy : Option Int → Bool
  | none => false
  | some v => v != 0

/-- Substring test on character lists (JavaScript String.prototype.includes). -/
def listHasInfix (pat : List Char) : List Char → Bool
  | [] => pat.isEmpty
  | c :: rest => pat.isPrefixOf (c :: rest) || listHasInfix pat rest

/-- Substring test on strings (JavaScript String.prototype.includes). -/
def strIncludes (s pat : String) : Bool :=
  listHasInfix pat.data s.data

/-! ## AccountManager (src/plugin/accounts.ts) -/

/-- One managed OAuth account (interface ManagedAccount).  Credential fields
are irrelevant to selection and carried as an opaque tag so accounts stay
distinguishable. -/
structure ManagedAccount where
  index : Nat
  refreshToken : String
  isRateLimited : Bool
  rateLimitResetTime : Int
  lastUsed : Int
deriving Repr, DecidableEq

/-- The pool state of class AccountManager: the ordered account list, the
round-robin cursor (this.currentIndex) and the current-account pointer
(this.currentAccountIndex, -1 when no account is current). -/
structure AccountManager where
  accounts : List ManagedAccount
  currentIndex : Nat
  currentAccountIndex : Int
deriving Repr, DecidableEq

/-- AccountManager.getCurrentAccount: the account at this.currentAccountIndex
when that pointer is in bounds, otherwise null. -/
def getCurrentAccount (m : AccountManager) : Option ManagedAccount :=
  if 0 ≤ m.currentAccountIndex ∧ m.currentAccountIndex < (m.accounts.length : Int) then
    m.accounts[m.currentAccountIndex.toNat]?
  else
    none

/-- The lazy cooldown clear inside AccountManager.getNext's filter: a
rate-limited account whose reset time has strictly passed is un-limited. -/
def clearIfExpired (now : Int) (a : ManagedAccount) : ManagedAccount :=
  if a.isRateLimited && decide (now > a.rateLimitResetTime) then
    { a with isRateLimited := false }
  else
    a

/-- Position in the list of the k-th (0-based) not-rate-limited account:
availPos l k = the index in l of available[k] in getNext's filtered view. -/
def availPos : List ManagedAccount → Nat → Option Nat
  | [], _ => none
  | a :: rest, k =>
    if !a.isRateLimited then
      match k with
      | 0 => some 0
      | k' + 1 => (availPos rest k').map (· + 1)
    else
      (availPos rest k).map (· + 1)

/-- Number of not-rate-limited accounts (available.length in getNext). -/
def countAvail (l : List ManagedAccount) : Nat :=
  l.countP (fun a => !a.isRateLimited)

/-- AccountManager.getNext: clear expired cooldowns, pick
available[currentIndex % available.length], advance the cursor and stamp
lastUsed on the picked account (the account object is aliased into the
list, modelled by List.set at its position). -/
def getNext (now : Int) (m : AccountManager) : Option ManagedAccount × AccountManager :=
  let cleared := m.accounts.map (clearIfExpired now)
  let n := countAvail cleared
  if n = 0 then
    (none, { m with accounts := cleared })
  else
    match availPos cleared (m.currentIndex % n) with
    | none => (none, { m with accounts := cleared })
    | some p =>
      match cleared[p]? with
      | none => (none, { m with accounts := cleared })
      | some a =>
        let updated := { a with lastUsed := now }
        (some updated,
         { m with accounts := cleared.set p updated, currentIndex := m.currentIndex + 1 })

/-- AccountManager.getCurrentOrNext: sticky selection.  Reuse the current
account when it is usable (or its cooldown has elapsed), otherwise fall
back to getNext and record the switch in currentAccountIndex. -/
def getCurrentOrNext (now : Int) (m : AccountManager) : Option ManagedAccount × AccountManager :=
  match getCurrentAccount m with
  | some cur =>
    if cur.isRateLimited = false then
      let updated := { cur with lastUsed := now }
      (some updated,
       { m with accounts := m.accounts.set m.currentAccountIndex.toNat updated })
    else if now > cur.rateLimitResetTime then
      let updated := { cur with isRateLimited := false, lastUsed := now }
      (some updated,
       { m with accounts := m.accounts.set m.currentAccountIndex.toNat updated })
    else
      let (next, m') := getNext now m
      match next with
      | some nxt => (some nxt, { m' with currentAccountIndex := (nxt.index : Int) })
      | none => (none, m')
  | none =>
    let (next, m') := getNext now m
    match next with
    | some nxt => (some nxt, { m' with currentAccountIndex := (nxt.index : Int) })
    | none => (none, m')

/-- AccountManager.markRateLimited applied to the account at list position p
(the source mutates the aliased account object). -/
def markRateLimited (m : AccountManager) (p : Nat) (retryAfterMs : Int) (now : Int) :
    AccountManager :=
  match m.accounts[p]? with
  | none => m
  | some a =>
    { m with
      accounts := m.accounts.set p
        { a with isRateLimited := true, rateLimitResetTime := now + retryAfterMs } }

/-- Contiguous re-indexing of the remaining accounts after a removal
(this.accounts.forEach((acc, idx) => (acc.index = idx))). -/
def reindexFrom : Nat → List ManagedAccount → List ManagedAccount
  | _, [] => []
  | i, a :: rest => { a with index := i } :: reindexFrom (i + 1) rest

/-- AccountManager.removeAccount: false and unchanged state when the index is
out of range; otherwise splice the account out and re-index.  The source
does not touch this.currentAccountIndex here. -/
def removeAccount (m : AccountManager) (i : Int) : Bool × AccountManager :=
  if i < 0 ∨ (m.accounts.length : Int) ≤ i then
    (false, m)
  else
    (true, { m with accounts := reindexFrom 0 (m.accounts.eraseIdx i.toNat) })

/-- AccountManager.getMinWaitTime: 0 when some account is available (or its
cooldown elapsed), otherwise the minimum remaining cooldown. -/
def getMinWaitTime (now : Int) (m : AccountManager) : Int :=
  let available := m.accounts.filter
    (fun a => !a.isRateLimited || decide (now > a.rateLimitResetTime))
  if available.length > 0 then 0
  else
    let waitTimes := (m.accounts.filter (fun a => a.isRateLimited)).map
      (fun a => max 0 (a.rateLimitResetTime - now))
    match waitTimes with
    | [] => 0
    | w :: ws => ws.foldl min w

/-! ## Endpoint fallback loop (src/plugin/fetch-wrapper.ts, src/constants.ts) -/

/-- CODE_ASSIST_ENDPOINT_FALLBACKS from src/constants.ts: the fixed ordered
fallback list daily → autopush → prod. -/
def CODE_ASSIST_ENDPOINT_FALLBACKS : List String :=
  [ "https://daily-cloudcode-pa.sandbox.googleapis.com"
  , "https://autopush-cloudcode-pa.sandbox.googleapis.com"
  , "https://cloudcode-pa.googleapis.com" ]

/-- The observable pieces of an upstream HTTP response that the fallback loop
inspects: the status code and the two retry headers (none models an absent
header and a header whose parseInt yields NaN alike). -/
structure UpstreamResponse where
  status : Nat
  retryAfterMsHeader : Option Int := none
  retryAfterHeader : Option Int := none
deriving Repr, DecidableEq

/-- parseRetryAfterMs: the retry-after-ms header wins, then retry-after in
seconds (times 1000), then the 60000 ms default. -/
def parseRetryAfterMs (r : UpstreamResponse) : Int :=
  match r.retryAfterMsHeader with
  | some v => v
  | none =>
    match r.retryAfterHeader with
    | some v => v * 1000
    | none => 60000

/-- sleepWithBackoff sleeps max(0, totalMs) in capped steps; only the total
slept duration is observable to the claims. -/
def sleepWithBackoffTotal (totalMs : Int) : Int :=
  max 0 totalMs

/-- Outcome of one pass of tryEndpointFallbacks (interface EndpointLoopResult,
with retry-soon carrying the duration the handler slept in place). -/
inductive EndpointLoopOutcome where
  | success (endpointIdx : Nat) (resp : UpstreamResponse)
  | rateLimit (retryAfterMs : Int)
  | retrySoon (sleptMs : Int)
  | allFailed (lastResp : Option UpstreamResponse)
deriving Repr, DecidableEq

/-- Result of the endpoint loop: its outcome, the pool state it leaves behind,
and the endpoint indices attempted, in order. -/
structure EndpointLoopResult where
  outcome : EndpointLoopOutcome
  manager : AccountManager
  attempted : List Nat
deriving Repr, DecidableEq

/-- handleRateLimit for the account at list position p: one account → mark and
surface RATE_LIMIT; more accounts and retry-after ≤ 5000 ms → sleep in place
and surface RETRY_SOON without marking; otherwise mark and surface
RATE_LIMIT. -/
def handleRateLimit (accountCount : Nat) (resp : UpstreamResponse) (m : AccountManager)
    (p : Nat) (now : Int) : EndpointLoopOutcome × AccountManager :=
  let retryAfterMs := parseRetryAfterMs resp
  if accountCount = 1 then
    (.rateLimit retryAfterMs, markRateLimited m p retryAfterMs now)
  else if retryAfterMs ≤ 5000 then
    (.retrySoon (sleepWithBackoffTotal retryAfterMs), m)
  else
    (.rateLimit retryAfterMs, markRateLimited m p retryAfterMs now)

/-- handleServerError: a 5xx on the final endpoint is treated as a rate limit
with the fixed 60000 ms cooldown. -/
def handleServerError (m : AccountManager) (p : Nat) (now : Int) :
    EndpointLoopOutcome × AccountManager :=
  (.rateLimit 60000, markRateLimited m p 60000 now)

/-- The body of tryEndpointFallbacks's for-loop over the remaining endpoint
indices; resp i is the response of the HTTP attempt against endpoint i, and
rest = [] exactly when i is the last endpoint. -/
def runEndpointsAux (resp : Nat → UpstreamResponse) (accountCount : Nat)
    (m : AccountManager) (p : Nat) (now : Int) :
    List Nat → Option UpstreamResponse → EndpointLoopResult
  | [], lastResp => ⟨.allFailed lastResp, m, []⟩
  | i :: rest, _lastResp =>
    if (resp i).status = 429 then
      ⟨(handleRateLimit accountCount (resp i) m p now).1,
       (handleRateLimit accountCount (resp i) m p now).2, [i]⟩
    else if 500 ≤ (resp i).status ∧ rest = [] then
      ⟨(handleServerError m p now).1, (handleServerError m p now).2, [i]⟩
    else if ((resp i).status = 403 ∨ (resp i).status = 404 ∨ 500 ≤ (resp i).status) ∧ rest ≠ [] then
      ⟨(runEndpointsAux resp accountCount m p now rest (some (resp i))).outcome,
       (runEndpointsAux resp accountCount m p now rest (some (resp i))).manager,
       i :: (runEndpointsAux resp accountCount m p now rest (some (resp i))).attempted⟩
    else
      ⟨.success i (resp i), m, [i]⟩

/-- tryEndpointFallbacks: iterate the fixed endpoint list strictly in order
for the current account at position p. -/
def tryEndpointFallbacks (resp : Nat → UpstreamResponse) (accountCount : Nat)
    (m : AccountManager) (p : Nat) (now : Int) : EndpointLoopResult :=
  runEndpointsAux resp accountCount m p now
    (List.range CODE_ASSIST_ENDPOINT_FALLBACKS.length) none

/-! ## Family-keyed signature cache

Modelled from the spec: the family-keyed signature-cache module itself is
absent from the provided sources (src/plugin/cache.ts shows an earlier
revision keyed only by sessionId and text, while transform/gemini.ts, the
current transform/claude.ts revision and the signature tests import and call
cacheSignature/getCachedSignature with a leading ModelFamily argument).  Per
the spec a SignatureCacheEntry is keyed by a stable hash of the session and
the exact reasoning text — here additionally by the model family, as every
caller passes it — and put overwrites while get returns the stored signature
or absent.  The stable hash is modelled as the key triple itself. -/
abbrev SignatureCache : Type :=
  List ((String × String × String) × String)

/-- cacheSignature family sessionId thoughtText signature: put, overwriting. -/
def cacheSignature (family sessionId thoughtText signature : String)
    (c : SignatureCache) : SignatureCache :=
  ((family, sessionId, thoughtText), signature) :: c

/-- getCachedSignature family sessionId thoughtText: the stored signature or
absent. -/
def getCachedSignature (family sessionId thoughtText : String)
    (c : SignatureCache) : Option String :=
  match c.find? (fun e => e.1 == (family, sessionId, thoughtText)) with
  | some e => some e.2
  | none => none

/-! ## Request payload data model (transform/types.ts, duck-typed JSON) -/

/-- A functionCall part payload: name plus optional identifier. -/
structure FunctionCallObj where
  name : String
  id : Option String := none
deriving Repr, DecidableEq

/-- A functionResponse part payload: name plus optional identifier. -/
structure FunctionResponseObj where
  name : String
  id : Option String := none
deriving Repr, DecidableEq

/-- One conversation part.  thought is Option Bool so that thought: false and
an absent field stay distinct JSON (both fail the part.thought === true
test). -/
structure ContentPart where
  text : Option String := none
  thought : Option Bool := none
  thoughtSignature : Option String := none
  functionCall : Option FunctionCallObj := none
  functionResponse : Option FunctionResponseObj := none
deriving Repr, DecidableEq

/-- One conversation turn; parts is none when absent or not an array. -/
structure Content where
  role : String
  parts : Option (List ContentPart) := none
deriving Repr, DecidableEq

/-- A thinkingConfig JSON object, in any of the field-name conventions the
code reads or writes (camelCase input names, snake_case output names). -/
structure ThinkingConfigObj where
  thinkingBudget : Option Int := none
  thinking_budget : Option Int := none
  thinkingLevel : Option String := none
  thinking_level : Option String := none
  includeThoughts : Option Bool := none
  include_thoughts : Option Bool := none
deriving Repr, DecidableEq

/-- The generationConfig fields the transformers read or write. -/
structure GenerationConfigObj where
  thinkingConfig : Option ThinkingConfigObj := none
  maxOutputTokens : Option Int := none
  max_output_tokens : Option Int := none
deriving Repr, DecidableEq

/-- The request-payload fields the modelled transformer regions read or
write: the conversation, the generation config, and the sessionId stamp. -/
structure RequestPayload where
  contents : Option (List Content) := none
  generationConfig : Option GenerationConfigObj := none
  sessionId : Option String := none
deriving Repr, DecidableEq

/-- TransformContext (transform/types.ts): per-call request metadata. -/
structure TransformContext where
  model : String
  family : String
  projectId : String
  streaming : Bool
  requestId : String
  sessionId : String
deriving Repr, DecidableEq

/-- The Antigravity envelope the transformers wrap the payload in. -/
structure WrappedBody where
  project : String
  model : String
  userAgent : String
  requestId : String
  request : RequestPayload
deriving Repr, DecidableEq

/-- normalizeThinkingConfig (src/plugin/request-helpers.ts): accept either
camelCase or snake_case field names and either a numeric budget or a string
level, producing one canonical camelCase shape (or undefined when nothing
usable is present). -/
def normalizeThinkingConfig (config : Option ThinkingConfigObj) : Option ThinkingConfigObj :=
  match config with
  | none => none
  | some r =>
    let budgetRaw := r.thinkingBudget.or r.thinking_budget
    let levelRaw := r.thinkingLevel.or r.thinking_level
    let includeRaw := r.includeThoughts.or r.include_thoughts
    let thinkingLevel :=
      match levelRaw with
      | some s => if s.length > 0 then some s.toLower else none
      | none => none
    if budgetRaw = none ∧ thinkingLevel = none ∧ includeRaw = none then
      none
    else
      some { thinkingBudget := budgetRaw, thinkingLevel := thinkingLevel,
             includeThoughts := includeRaw }

/-! ## Native-family transformer (src/plugin/transform/gemini.ts) -/

/-- THOUGHT_SIGNATURE_BYPASS: the fixed bypass sentinel. -/
def THOUGHT_SIGNATURE_BYPASS : String :=
  "skip_thought_signature_validator"

/-- True when the first character of the name is an ASCII digit
(the /^[0-9]/ test in sanitizeToolNameForGemini). -/
def startsWithDigit (name : String) : Bool :=
  match name.data with
  | [] => false
  | c :: _ => '0' ≤ c && c ≤ '9'

/-- sanitizeToolNameForGemini: prepend t_ to names starting with a digit,
pass every other name through unchanged. -/
def sanitizeToolNameForGemini (name : String) : String :=
  if startsWithDigit name then "t_" ++ name else name

/-- ASCII letter test for the documented Gemini tool-name pattern. -/
def isAsciiLetter (c : Char) : Bool :=
  ('A' ≤ c && c ≤ 'Z') || ('a' ≤ c && c ≤ 'z')

/-- A character the Gemini pattern allows in non-leading position. -/
def isGeminiNameChar (c : Char) : Bool :=
  isAsciiLetter c || ('0' ≤ c && c ≤ '9') || c = '_' || c = '-'

/-- The documented Gemini tool-name pattern from the sanitizer's comment and
the spec: one leading letter or underscore, then letters, digits,
underscores or hyphens. -/
def matchesGeminiToolNamePattern (s : String) : Bool :=
  match s.data with
  | [] => false
  | c :: rest => (isAsciiLetter c || c = '_') && rest.all isGeminiNameChar

/-- The generationConfig region of transformGeminiRequest: normalize
thinkingConfig in place, or delete an un-normalizable one. -/
def transformGeminiGenerationConfig (raw : Option GenerationConfigObj) :
    Option GenerationConfigObj :=
  let normalized := normalizeThinkingConfig (raw.bind (·.thinkingConfig))
  match normalized with
  | some nt =>
    match raw with
    | some r => some { r with thinkingConfig := some nt }
    | none => some { thinkingConfig := some nt }
  | none =>
    match raw with
    | some r => if r.thinkingConfig.isSome then some { r with thinkingConfig := none } else raw
    | none => raw

/-- One part of a role:"model" turn in transformGeminiRequest's contents walk:
thought parts are kept only when a same-family cache entry restores their
signature; parts carrying a functionCall are stamped with the bypass
sentinel; every other part passes through. -/
def transformGeminiModelPart (context : TransformContext) (cache : SignatureCache)
    (part : ContentPart) : Option ContentPart :=
  if part.thought = some true then
    if optStrTruthy part.text && !context.sessionId.isEmpty then
      match part.text with
      | some t =>
        let cachedSig := getCachedSignature context.family context.sessionId t cache
        if optStrTruthy cachedSig then
          some { part with thoughtSignature := cachedSig }
        else
          none
      | none => none
    else
      none
  else if part.functionCall.isSome then
    some { part with thoughtSignature := some THOUGHT_SIGNATURE_BYPASS }
  else
    some part

/-- One turn of transformGeminiRequest's contents walk: only role "model"
turns with a parts array are filtered and rewritten. -/
def transformGeminiContent (context : TransformContext) (cache : SignatureCache)
    (content : Content) : Content :=
  if content.role ≠ "model" then
    content
  else
    match content.parts with
    | none => content
    | some parts =>
      { content with parts := some (parts.filterMap (transformGeminiModelPart context cache)) }

/-- transformGeminiRequest (the regions acting on generationConfig, contents
and sessionId), producing the wrapped Antigravity envelope.  The walk only
reads the signature cache and never writes it. -/
def transformGeminiRequest (context : TransformContext) (cache : SignatureCache)
    (parsedBody : RequestPayload) : WrappedBody :=
  { project := context.projectId
  , model := context.model
  , userAgent := "antigravity"
  , requestId := context.requestId
  , request :=
    { contents := parsedBody.contents.map (List.map (transformGeminiContent context cache))
    , generationConfig := transformGeminiGenerationConfig parsedBody.generationConfig
    , sessionId := some context.sessionId } }

/-! ## Proxied-family transformer (transform/claude.ts, family-keyed-cache
revision; the thinking-config and contents-walk regions the claims cite) -/

/-- The defaulting step for thinking models: ensure include_thoughts and a
non-zero thinking budget (16384 when the caller omitted it or sent 0). -/
def claudeThinkingDefaults (nt : Option ThinkingConfigObj) : ThinkingConfigObj :=
  match nt with
  | none => { thinkingBudget := some 16384, include_thoughts := some true }
  | some nt0 =>
    let nt1 :=
      if nt0.include_thoughts = none then { nt0 with include_thoughts := some true } else nt0
    if nt1.thinkingBudget = none ∨ nt1.thinkingBudget = some 0 then
      { nt1 with thinkingBudget := some 16384 }
    else
      nt1

/-- finalThinkingConfig: the clean snake_case config sent to the backend. -/
def claudeFinalThinkingConfig (nt : ThinkingConfigObj) : ThinkingConfigObj :=
  { include_thoughts := some (nt.include_thoughts.getD true)
  , thinking_budget := if optIntTruthy nt.thinkingBudget then nt.thinkingBudget else none }

/-- The generationConfig region of transformClaudeRequest: for -thinking
models install the defaulted snake_case thinking config and raise
maxOutputTokens to 64000 whenever the caller's ceiling is absent, zero, or
not strictly above the budget; for other models mirror the Gemini
normalization. -/
def claudeGenerationConfig (model : String) (raw : Option GenerationConfigObj) :
    Option GenerationConfigObj :=
  let nt := normalizeThinkingConfig (raw.bind (·.thinkingConfig))
  if strIncludes model "-thinking" then
    let ntd := claudeThinkingDefaults nt
    let final := claudeFinalThinkingConfig ntd
    let budget := ntd.thinkingBudget
    match raw with
    | some r =>
      let r1 := { r with thinkingConfig := some final }
      let currentMax := r.maxOutputTokens.or r.max_output_tokens
      if optIntTruthy budget && (!optIntTruthy currentMax || decide (currentMax.getD 0 ≤ budget.getD 0)) then
        some { r1 with maxOutputTokens := some 64000, max_output_tokens := none }
      else
        some r1
    | none =>
      if optIntTruthy budget then
        some { thinkingConfig := some final, maxOutputTokens := some 64000 }
      else
        some { thinkingConfig := some final }
  else
    match nt with
    | some nt0 =>
      match raw with
      | some r => some { r with thinkingConfig := some nt0 }
      | none => some { thinkingConfig := some nt0 }
    | none =>
      match raw with
      | some r => if r.thinkingConfig.isSome then some { r with thinkingConfig := none } else raw
      | none => raw

/-- The final fallback strip: the specific non-reasoning model loses any
thinking config right before serialization. -/
def claudeSonnetFallbackStrip (model : String) (g : Option GenerationConfigObj) :
    Option GenerationConfigObj :=
  if model = "gemini-claude-sonnet-4-5" then
    match g with
    | some r => if r.thinkingConfig.isSome then some { r with thinkingConfig := none } else g
    | none => g
  else
    g

/-- State threaded through transformClaudeRequest's contents walk: the
signature cache, the per-call-name FIFO queues of call identifiers, and the
number of identifiers generated so far (randomUUID is supplied externally
as uuids : Nat → String and consumed in order). -/
structure ClaudeWalkState where
  cache : SignatureCache
  queues : List (String × List String)
  uuidCtr : Nat
deriving Repr, DecidableEq

/-- Map.get on the per-name queue map. -/
def queueGet (queues : List (String × List String)) (name : String) : Option (List String) :=
  match queues.find? (fun q => q.1 == name) with
  | some q => some q.2
  | none => none

/-- Map.set on the per-name queue map. -/
def queueSet (queues : List (String × List String)) (name : String) (q : List String) :
    List (String × List String) :=
  (name, q) :: queues.filter (fun e => e.1 != name)

/-- The functionCall / functionResponse region of the claude contents walk:
calls without a (truthy) id get name-uuid identifiers and every call id is
pushed onto its name's FIFO queue; a response without an id takes the
oldest outstanding call id of the same name. -/
def processClaudeCallResponse (uuids : Nat → String) (st : ClaudeWalkState)
    (part : ContentPart) : Option ContentPart × ClaudeWalkState :=
  let (part1, st1) :=
    match part.functionCall with
    | some fc =>
      let (fc1, ctr1) :=
        if !optStrTruthy fc.id then
          ({ fc with id := some (fc.name ++ "-" ++ uuids st.uuidCtr) }, st.uuidCtr + 1)
        else
          (fc, st.uuidCtr)
      let queue := (queueGet st.queues fc1.name).getD []
      ({ part with functionCall := some fc1 },
       { st with queues := queueSet st.queues fc1.name (queue ++ [fc1.id.getD ""]),
                 uuidCtr := ctr1 })
    | none => (part, st)
  let (part2, st2) :=
    match part1.functionResponse with
    | some fr =>
      if !optStrTruthy fr.id then
        match queueGet st1.queues fr.name with
        | some (idv :: restQ) =>
          ({ part1 with functionResponse := some { fr with id := some idv } },
           { st1 with queues := queueSet st1.queues fr.name restQ })
        | _ => (part1, st1)
      else
        (part1, st1)
    | none => (part1, st1)
  (some part2, st2)

/-- One part of the claude contents walk.  A thought part first attempts a
same-family cache restoration when its signature is absent or shorter than
50 characters, is kept only when the resulting signature is strictly longer
than 50 characters (in which case it is re-cached under its text), and is
dropped otherwise; every surviving part then runs the call/response
region. -/
def processClaudePart (context : TransformContext) (uuids : Nat → String)
    (st : ClaudeWalkState) (part : ContentPart) : Option ContentPart × ClaudeWalkState :=
  if part.thought = some true then
    let enterRestore :=
      match part.thoughtSignature with
      | none => true
      | some s => s.length < 50
    let (sig1, part1) :=
      if enterRestore then
        match part.text with
        | some t =>
          match getCachedSignature context.family context.sessionId t st.cache with
          | some cached =>
            if !cached.isEmpty then
              (some cached, { part with thoughtSignature := some cached })
            else
              (part.thoughtSignature, part)
          | none => (part.thoughtSignature, part)
        | none => (part.thoughtSignature, part)
      else
        (part.thoughtSignature, part)
    match sig1 with
    | some s =>
      if s.length > 50 then
        let cache' :=
          match part1.text with
          | some t =>
            if !context.sessionId.isEmpty then
              cacheSignature context.family context.sessionId t s st.cache
            else
              st.cache
          | none => st.cache
        processClaudeCallResponse uuids { st with cache := cache' } part1
      else
        (none, st)
    | none => (none, st)
  else
    processClaudeCallResponse uuids st part

/-- The parts loop of one turn in the claude contents walk. -/
def processClaudeParts (context : TransformContext) (uuids : Nat → String) :
    ClaudeWalkState → List ContentPart → List ContentPart × ClaudeWalkState
  | st, [] => ([], st)
  | st, part :: rest =>
    let (res, st1) := processClaudePart context uuids st part
    let (tail, st2) := processClaudeParts context uuids st1 rest
    match res with
    | some p => (p :: tail, st2)
    | none => (tail, st2)

/-- The turns loop of the claude contents walk; the id queues and cache are
shared across all turns of one transform call. -/
def processClaudeContents (context : TransformContext) (uuids : Nat → String) :
    ClaudeWalkState → List Content → List Content × ClaudeWalkState
  | st, [] => ([], st)
  | st, c :: rest =>
    match c.parts with
    | none =>
      let (tail, st1) := processClaudeContents context uuids st rest
      (c :: tail, st1)
    | some parts =>
      let (fp, st1) := processClaudeParts context uuids st parts
      let (tail, st2) := processClaudeContents context uuids st1 rest
      ({ c with parts := some fp } :: tail, st2)

/-- transformClaudeRequest (the thinking-config, contents-walk and envelope
regions the claims cite), returning the wrapped body together with the
signature cache it leaves behind. -/
def transformClaudeRequest (context : TransformContext) (uuids : Nat → String)
    (cache : SignatureCache) (parsedBody : RequestPayload) :
    WrappedBody × SignatureCache :=
  let genCfg := claudeGenerationConfig context.model parsedBody.generationConfig
  let (contents, cacheOut) :=
    match parsedBody.contents with
    | none => ((none : Option (List Content)), cache)
    | some cs =>
      let (cs', st') := processClaudeContents context uuids ⟨cache, [], 0⟩ cs
      (some cs', st'.cache)
  ({ project := context.projectId
   , model := context.model
   , userAgent := "antigravity"
   , requestId := context.requestId
   , request :=
     { contents := contents
     , generationConfig := claudeSonnetFallbackStrip context.model genCfg
     , sessionId := some context.sessionId } }, cacheOut)

/-! ## Response usage headers (src/plugin/request-helpers.ts, request.ts) -/

/-- The raw usageMetadata object fields (toNumber keeps finite numbers). -/
structure GeminiUsageMetadata where
  totalTokenCount : Option Int := none
  promptTokenCount : Option Int := none
  candidatesTokenCount : Option Int := none
  cachedContentTokenCount : Option Int := none
deriving Repr, DecidableEq

/-- The nested response object of a buffered Gemini API body. -/
structure ResponseField where
  usageMetadata : Option GeminiUsageMetadata := none
deriving Repr, DecidableEq

/-- The Gemini API body fields the usage-header path reads (the error
rewrites touch only the error field and never usageMetadata). -/
structure GeminiApiBody where
  response : Option ResponseField := none
deriving Repr, DecidableEq

/-- extractUsageMetadata: the nested response.usageMetadata record, or null
when missing. -/
def extractUsageMetadata (body : GeminiApiBody) : Option GeminiUsageMetadata :=
  match body.response with
  | none => none
  | some r => r.usageMetadata

/-- The header-setting region of transformAntigravityResponse (the buffered
path): the source guards all four x-gemini-*-token-count headers behind the
presence of cachedContentTokenCount. -/
def transformAntigravityResponseUsageHeaders (usage : Option GeminiUsageMetadata) :
    List (String × String) :=
  match usage with
  | none => []
  | some u =>
    match u.cachedContentTokenCount with
    | none => []
    | some c =>
      [("x-gemini-cached-content-token-count", toString c)]
      ++ (match u.totalTokenCount with
          | some t => [("x-gemini-total-token-count", toString t)]
          | none => [])
      ++ (match u.promptTokenCount with
          | some t => [("x-gemini-prompt-token-count", toString t)]
          | none => [])
      ++ (match u.candidatesTokenCount with
          | some t => [("x-gemini-candidates-token-count", toString t)]
          | none => [])

/-- The buffered (non-streaming) usage-header pipeline: parse → extract →
set headers. -/
def bufferedUsageHeaders (body : GeminiApiBody) : List (String × String) :=
  transformAntigravityResponseUsageHeaders (extractUsageMetadata body)

/-- k consecutive getNext calls, collecting the index field of each returned
account (the observable identity of the visited accounts). -/
def getNextSeq (now : Int) : Nat → AccountManager → List (Option Nat) × AccountManager
  | 0, m => ([], m)
  | k + 1, m =>
    let (a, m') := getNext now m
    let (rest, m'') := getNextSeq now k m'
    (a.map (·.index) :: rest, m'')

/-! ## Theorems -/

/-- Claim C7 (failing input): sanitizing the name "@tool" returns it
unchanged, yet it does not match the documented pattern, so sanitized
output is not always pattern-valid; the idempotence and digit-prefix parts
do hold on this input. -/
theorem c7_sanitize_pattern_violation :
    sanitizeToolNameForGemini "@tool" = "@tool" ∧
    matchesGeminiToolNamePattern "@tool" = false ∧
    sanitizeToolNameForGemini (sanitizeToolNameForGemini "@tool") =
      sanitizeToolNameForGemini "@tool" ∧
    sanitizeToolNameForGemini "2tool" = "t_2tool" := by
  decide

/-- Claim C4 (failing input): removing account 0 from a two-account pool whose
current pointer designates position 1 re-indexes the survivor but leaves
the pointer at 1, which now dangles: getCurrentAccount returns null instead
of the surviving (previously current) account. -/
theorem c4_remove_account_dangling_pointer :
    removeAccount ⟨[⟨0, "a", false, 0, 0⟩, ⟨1, "b", false, 0, 0⟩], 0, 1⟩ 0 =
      (true, ⟨[⟨0, "b", false, 0, 0⟩], 0, 1⟩) ∧
    getCurrentAccount ⟨[⟨0, "b", false, 0, 0⟩], 0, 1⟩ = none ∧
    removeAccount ⟨[⟨0, "a", false, 0, 0⟩, ⟨1, "b", false, 0, 0⟩], 0, 1⟩ 5 =
      (false, ⟨[⟨0, "a", false, 0, 0⟩, ⟨1, "b", false, 0, 0⟩], 0, 1⟩) := by
  decide

/-- Claim C9 (counterexample): a buffered body whose usageMetadata carries
total, prompt and candidates counts but no cachedContent count produces no
usage headers at all — the three present counts are not surfaced. -/
theorem c9_usage_headers_counterexample :
    bufferedUsageHeaders ⟨some ⟨some ⟨some 10, some 4, some 6, none⟩⟩⟩ = [] := by
  decide

/-- Claim C3 (counterexample): a two-account pool, none rate-limited, whose
round-robin cursor stands at 1 (reachable from a stored activeIndex or
after an earlier call) is visited as account 1 then account 0 — each
exactly once, but not in insertion order. -/
theorem c3_round_robin_counterexample :
    ((getNext 0 ⟨[⟨0, "a", false, 0, 0⟩, ⟨1, "b", false, 0, 0⟩], 1, -1⟩).1.map (·.index) =
       some 1) ∧
    (getNextSeq 0 2 ⟨[⟨0, "a", false, 0, 0⟩, ⟨1, "b", false, 0, 0⟩], 1, -1⟩).1 =
      [some 1, some 0] := by
  decide

/-- Claim C8 (counterexample): a thinking-model request whose caller supplies
a reasoning budget of 64000 and no output-token ceiling emerges with
maxOutputTokens = 64000, equal to — not strictly greater than — the
budget. -/
theorem c8_max_output_tokens_counterexample :
    ((transformClaudeRequest ⟨"claude-opus-4-5-thinking", "claude", "p", false, "r", "s"⟩
        (fun _ => "u") []
        { generationConfig :=
            some { thinkingConfig := some { thinkingBudget := some 64000 } } }).1.request.generationConfig =
      some { thinkingConfig :=
               some { include_thoughts := some true, thinking_budget := some 64000 }
           , maxOutputTokens := some 64000 }) ∧
    ¬ ((64000 : Int) > 64000) := by
  decide

/-- Claim C5 (counterexample): a model-turn reasoning part with text "T" and a
valid 51-character signature, transformed for the claude family, is kept
with its original signature (not the bypass sentinel) and cached under the
claude family key; transforming the same text back for the gemini family
in the same session consults only the gemini-family cache and drops the
part instead of restoring the signature. -/
theorem c5_cross_family_bypass_counterexample :
    ((transformClaudeRequest ⟨"claude-opus-4-5-thinking", "claude", "p", false, "r", "s"⟩
        (fun _ => "u") []
        { contents := some [⟨"model",
            some [⟨some "T", some true,
                   some "AAAAAAAAAAAAAAAAAAAAAAAAAAAAAAAAAAAAAAAAAAAAAAAAAAA",
                   none, none⟩]⟩] }).1.request.contents =
      some [⟨"model",
        some [⟨some "T", some true,
               some "AAAAAAAAAAAAAAAAAAAAAAAAAAAAAAAAAAAAAAAAAAAAAAAAAAA",
               none, none⟩]⟩]) ∧
    "AAAAAAAAAAAAAAAAAAAAAAAAAAAAAAAAAAAAAAAAAAAAAAAAAAA" ≠ THOUGHT_SIGNATURE_BYPASS ∧
    ((transformClaudeRequest ⟨"claude-opus-4-5-thinking", "claude", "p", false, "r", "s"⟩
        (fun _ => "u") []
        { contents := some [⟨"model",
            some [⟨some "T", some true,
                   some "AAAAAAAAAAAAAAAAAAAAAAAAAAAAAAAAAAAAAAAAAAAAAAAAAAA",
                   none, none⟩]⟩] }).2 =
      [(("claude", "s", "T"), "AAAAAAAAAAAAAAAAAAAAAAAAAAAAAAAAAAAAAAAAAAAAAAAAAAA")]) ∧
    ((transformGeminiRequest ⟨"gemini-3-pro-high", "gemini", "p", false, "r2", "s"⟩
        [(("claude", "s", "T"), "AAAAAAAAAAAAAAAAAAAAAAAAAAAAAAAAAAAAAAAAAAAAAAAAAAA")]
        { contents := some [⟨"model",
            some [⟨some "T", some true, none, none, none⟩]⟩] }).request.contents =
      some [⟨"model", (some [] : Option (List ContentPart))⟩]) := by
  decide

/-- Claim C6: two functionCall parts named search with no identifiers followed
by two functionResponse parts named search with no identifiers — each call
receives a fresh name-uuid identifier and each response receives the
identifier of the call in the same relative order (FIFO per name). -/
theorem c6_fifo_pairing (context : TransformContext) (uuids : Nat → String)
    (cache : SignatureCache) (hne : uuids 0 ≠ uuids 1) :
    ((transformClaudeRequest context uuids cache
       { contents := some (
         [ ⟨"model", some [⟨none, none, none, some ⟨"search", none⟩, none⟩,
                           ⟨none, none, none, some ⟨"search", none⟩, none⟩]⟩
         , ⟨"user", some [⟨none, none, none, none, some ⟨"search", none⟩⟩,
                          ⟨none, none, none, none, some ⟨"search", none⟩⟩]⟩ ]) }).1.request.contents =
      some
      [ ⟨"model", some [⟨none, none, none, some ⟨"search", some ("search-" ++ uuids 0)⟩, none⟩,
                        ⟨none, none, none, some ⟨"search", some ("search-" ++ uuids 1)⟩, none⟩]⟩
      , ⟨"user", some [⟨none, none, none, none, some ⟨"search", some ("search-" ++ uuids 0)⟩⟩,
                       ⟨none, none, none, none, some ⟨"search", some ("search-" ++ uuids 1)⟩⟩]⟩ ])
    ∧ ("search-" ++ uuids 0) ≠ ("search-" ++ uuids 1) := by
  constructor
  · simp [transformClaudeRequest, processClaudeContents, processClaudeParts, processClaudePart,
          processClaudeCallResponse, queueGet, queueSet, optStrTruthy]
  · intro h
    apply hne
    have hd := congrArg String.data h
    rw [String.data_append, String.data_append] at hd
    exact String.ext (List.append_cancel_left hd)

/-- Claim C9 (amended): the buffered normalizer surfaces usage token counts as
x-gemini headers only when cachedContentTokenCount is present; in that case
the cached-content header is always set and each of the total, prompt and
candidates headers is set when its count is present. -/
theorem c9_usage_headers_amended (b : GeminiApiBody) (u : GeminiUsageMetadata)
    (hu : extractUsageMetadata b = some u) :
    ((bufferedUsageHeaders b ≠ []) ↔ u.cachedContentTokenCount ≠ none) ∧
    (∀ c, u.cachedContentTokenCount = some c →
      ("x-gemini-cached-content-token-count", toString c) ∈ bufferedUsageHeaders b ∧
      (∀ t, u.totalTokenCount = some t →
        ("x-gemini-total-token-count", toString t) ∈ bufferedUsageHeaders b) ∧
      (∀ t, u.promptTokenCount = some t →
        ("x-gemini-prompt-token-count", toString t) ∈ bufferedUsageHeaders b) ∧
      (∀ t, u.candidatesTokenCount = some t →
        ("x-gemini-candidates-token-count", toString t) ∈ bufferedUsageHeaders b)) := by
  unfold bufferedUsageHeaders
  rw [hu]
  constructor
  · cases hc : u.cachedContentTokenCount <;>
      simp [transformAntigravityResponseUsageHeaders, hc]
  · intro c hc
    refine ⟨?_, ?_, ?_, ?_⟩
    · simp [transformAntigravityResponseUsageHeaders, hc]
    · intro t ht
      simp [transformAntigravityResponseUsageHeaders, hc, ht]
    · intro t ht
      simp [transformAntigravityResponseUsageHeaders, hc, ht]
    · intro t ht
      simp [transformAntigravityResponseUsageHeaders, hc, ht]

/-- Claim C9 witness: a concrete buffered body whose usage metadata carries
all four counts has its total token count surfaced as a header. -/
theorem c9_usage_headers_amended_witness :
    ("x-gemini-total-token-count", toString (10 : Int)) ∈
      bufferedUsageHeaders ⟨some ⟨some ⟨some 10, some 4, some 6, some 2⟩⟩⟩ :=
  (((c9_usage_headers_amended ⟨some ⟨some ⟨some 10, some 4, some 6, some 2⟩⟩⟩
      ⟨some 10, some 4, some 6, some 2⟩ rfl).2 2 rfl).2.1 10 rfl)

/-- Claim C10: transformGeminiRequest rewrites only role "model" turns; a turn
with any other role appears in the wrapped output at the same position,
with its parts — reasoning parts, functionCall parts and pre-existing
thoughtSignature fields included — verbatim. -/
theorem c10_gemini_non_model_roles_untouched (context : TransformContext)
    (cache : SignatureCache) (parsedBody : RequestPayload) (cs : List Content)
    (hcs : parsedBody.contents = some cs) (i : Nat) (content : Content)
    (hi : cs[i]? = some content) (hrole : content.role ≠ "model") :
    transformGeminiContent context cache content = content ∧
    ∃ outcs, (transformGeminiRequest context cache parsedBody).request.contents = some outcs ∧
      outcs[i]? = some content := by
  have hfix : transformGeminiContent context cache content = content := by
    unfold transformGeminiContent
    rw [if_pos hrole]
  refine ⟨hfix, cs.map (transformGeminiContent context cache), ?_, ?_⟩
  · simp [transformGeminiRequest, hcs]
  · rw [List.getElem?_map, hi, Option.map_some', hfix]

/-- Claim C10 witness: a user turn carrying a reasoning part with a
thoughtSignature and a functionCall part passes through a concrete gemini
transform unchanged. -/
theorem c10_gemini_non_model_roles_untouched_witness :
    transformGeminiContent ⟨"gemini-3-pro-high", "gemini", "p", false, "r", "s"⟩ []
      ⟨"user", some [⟨some "hello", some true, some "user-sig", none, none⟩,
                     ⟨none, none, none, some ⟨"f", none⟩, none⟩]⟩ =
      ⟨"user", some [⟨some "hello", some true, some "user-sig", none, none⟩,
                     ⟨none, none, none, some ⟨"f", none⟩, none⟩]⟩ :=
  (c10_gemini_non_model_roles_untouched ⟨"gemini-3-pro-high", "gemini", "p", false, "r", "s"⟩
    []
    { contents := some ([⟨"user", some [⟨some "hello", some true, some "user-sig", none, none⟩,
                                        ⟨none, none, none, some ⟨"f", none⟩, none⟩]⟩]) }
    [⟨"user", some [⟨some "hello", some true, some "user-sig", none, none⟩,
                    ⟨none, none, none, some ⟨"f", none⟩, none⟩]⟩]
    rfl 0
    ⟨"user", some [⟨some "hello", some true, some "user-sig", none, none⟩,
                   ⟨none, none, none, some ⟨"f", none⟩, none⟩]⟩
    rfl (by decide)).1

/-- Claim C6 witness: with a concrete uuid supply the two search calls and
responses pair up FIFO. -/
theorem c6_fifo_pairing_witness :
    ((transformClaudeRequest ⟨"claude-opus-4-5-thinking", "claude", "p", false, "r", "s"⟩
       (fun n => toString n) []
       { contents := some (
         [ ⟨"model", some [⟨none, none, none, some ⟨"search", none⟩, none⟩,
                           ⟨none, none, none, some ⟨"search", none⟩, none⟩]⟩
         , ⟨"user", some [⟨none, none, none, none, some ⟨"search", none⟩⟩,
                          ⟨none, none, none, none, some ⟨"search", none⟩⟩]⟩ ]) }).1.request.contents =
      some (
      [ ⟨"model", some [⟨none, none, none, some ⟨"search", some "search-0"⟩, none⟩,
                        ⟨none, none, none, some ⟨"search", some "search-1"⟩, none⟩]⟩
      , ⟨"user", some [⟨none, none, none, none, some ⟨"search", some "search-0"⟩⟩,
                       ⟨none, none, none, none, some ⟨"search", some "search-1"⟩⟩]⟩ ])) :=
  (c6_fifo_pairing ⟨"claude-opus-4-5-thinking", "claude", "p", false, "r", "s"⟩
    (fun n => toString n) [] (by decide)).1

/-- Every run of the endpoint loop attempts an initial segment of the index
list it is given, in order. -/
theorem runEndpointsAux_attempted_take (resp : Nat → UpstreamResponse) (accountCount : Nat)
    (m : AccountManager) (p : Nat) (now : Int) :
    ∀ (is : List Nat) (lastResp : Option UpstreamResponse),
      ∃ k, (runEndpointsAux resp accountCount m p now is lastResp).attempted = is.take k := by
  intro is
  induction is with
  | nil => intro lastResp; exact ⟨0, rfl⟩
  | cons i rest ih =>
    intro lastResp
    unfold runEndpointsAux
    split
    · exact ⟨1, rfl⟩
    · split
      · exact ⟨1, rfl⟩
      · split
        · obtain ⟨k, hk⟩ := ih (some (resp i))
          exact ⟨k + 1, by simp [hk]⟩
        · exact ⟨1, rfl⟩

/-- Claim C2: endpoint attempts are strictly sequential in fallback order; a
403/404/5xx on a non-final endpoint moves to the next endpoint with the
pool untouched; with a 404 on the first two endpoints and a 200 on the
third, the call succeeds with the third endpoint's response after
attempting exactly the three endpoints in order. -/
theorem c2_endpoint_fallback (resp : Nat → UpstreamResponse) (accountCount : Nat)
    (m : AccountManager) (p : Nat) (now : Int)
    (h0 : (resp 0).status = 404) (h1 : (resp 1).status = 404) (h2 : (resp 2).status = 200) :
    (tryEndpointFallbacks resp accountCount m p now =
      ⟨.success 2 (resp 2), m, [0, 1, 2]⟩) ∧
    (∀ (resp' : Nat → UpstreamResponse) (ac : Nat) (m' : AccountManager) (p' : Nat) (now' : Int),
      ∃ k, (tryEndpointFallbacks resp' ac m' p' now').attempted =
        (List.range CODE_ASSIST_ENDPOINT_FALLBACKS.length).take k) ∧
    (∀ (resp' : Nat → UpstreamResponse) (ac : Nat) (m' : AccountManager) (p' : Nat) (now' : Int)
       (i : Nat) (rest : List Nat) (lastR : Option UpstreamResponse),
      ((resp' i).status = 403 ∨ (resp' i).status = 404 ∨ 500 ≤ (resp' i).status) →
      rest ≠ [] →
      runEndpointsAux resp' ac m' p' now' (i :: rest) lastR =
        ⟨(runEndpointsAux resp' ac m' p' now' rest (some (resp' i))).outcome,
         (runEndpointsAux resp' ac m' p' now' rest (some (resp' i))).manager,
         i :: (runEndpointsAux resp' ac m' p' now' rest (some (resp' i))).attempted⟩) := by
  refine ⟨?_, ?_, ?_⟩
  · show runEndpointsAux resp accountCount m p now [0, 1, 2] none = _
    rw [runEndpointsAux, if_neg (by rw [h0]; decide), if_neg (by rw [h0]; decide),
        if_pos (by rw [h0]; decide)]
    rw [runEndpointsAux, if_neg (by rw [h1]; decide), if_neg (by rw [h1]; decide),
        if_pos (by rw [h1]; decide)]
    rw [runEndpointsAux, if_neg (by rw [h2]; decide), if_neg (by rw [h2]; decide),
        if_neg (by rw [h2]; decide)]
  · intro resp' ac m' p' now'
    exact runEndpointsAux_attempted_take resp' ac m' p' now' _ none
  · intro resp' ac m' p' now' i rest lastR hcont hrest
    have h429 : ¬ (resp' i).status = 429 := by rcases hcont with h | h | h <;> omega
    have h5xx : ¬ (500 ≤ (resp' i).status ∧ rest = []) := by
      intro ⟨_, hr⟩; exact hrest hr
    rw [runEndpointsAux, if_neg h429, if_neg h5xx, if_pos ⟨hcont, hrest⟩]

/-- Claim C2 witness: a concrete 404/404/200 run returns the third endpoint's
response with all three endpoints attempted in order. -/
theorem c2_endpoint_fallback_witness :
    tryEndpointFallbacks
      (fun i => if i = 2 then ⟨200, none, none⟩ else ⟨404, none, none⟩) 2
      ⟨[⟨0, "a", false, 0, 0⟩, ⟨1, "b", false, 0, 0⟩], 0, 0⟩ 0 0 =
      ⟨.success 2 ⟨200, none, none⟩,
       ⟨[⟨0, "a", false, 0, 0⟩, ⟨1, "b", false, 0, 0⟩], 0, 0⟩, [0, 1, 2]⟩ :=
  (c2_endpoint_fallback
    (fun i => if i = 2 then ⟨200, none, none⟩ else ⟨404, none, none⟩) 2
    ⟨[⟨0, "a", false, 0, 0⟩, ⟨1, "b", false, 0, 0⟩], 0, 0⟩ 0 0
    rfl rfl rfl).1


/-- normalizeThinkingConfig emits the canonical camelCase shape: its output
never carries the snake_case include_thoughts field. -/
theorem normalizeThinkingConfig_include_snake (c : Option ThinkingConfigObj)
    (nt0 : ThinkingConfigObj) (h : normalizeThinkingConfig c = some nt0) :
    nt0.include_thoughts = none := by
  cases c with
  | none => exact Option.noConfusion h
  | some r =>
    simp only [normalizeThinkingConfig] at h
    split at h
    · exact Option.noConfusion h
    · have := Option.some.inj h
      subst this
      rfl

/-- After the thinking-model defaulting step the config always carries
include_thoughts = true and a non-zero budget. -/
theorem claudeThinkingDefaults_spec (nt : Option ThinkingConfigObj)
    (hsnake : ∀ nt0, nt = some nt0 → nt0.include_thoughts = none) :
    (claudeThinkingDefaults nt).include_thoughts = some true ∧
    ∃ b, b ≠ 0 ∧ (claudeThinkingDefaults nt).thinkingBudget = some b := by
  cases nt with
  | none => exact ⟨rfl, 16384, by decide, rfl⟩
  | some nt0 =>
    obtain ⟨tb, tbs, tl, tls, it, its⟩ := nt0
    have hits : its = none := hsnake _ rfl
    subst hits
    rcases tb with _ | v
    · exact ⟨by simp [claudeThinkingDefaults], 16384, by decide,
        by simp [claudeThinkingDefaults]⟩
    · by_cases hv : v = 0
      · subst hv
        exact ⟨by simp [claudeThinkingDefaults], 16384, by decide,
          by simp [claudeThinkingDefaults]⟩
      · exact ⟨by simp [claudeThinkingDefaults, hv], v, hv,
          by simp [claudeThinkingDefaults, hv]⟩

/-- Claim C8 (amended): for a thinking-model request the transformer emits a
thinking config with include_thoughts = true and a non-zero budget
(16384 when the caller omitted or zeroed it), and an output-token ceiling
that is raised to 64000 whenever the caller's value was absent, zero, or
not strictly greater than the budget; the resulting ceiling strictly
exceeds the budget whenever the budget is below 64000 (but is 64000, not
more, when the caller supplies a budget of at least 64000). -/
theorem c8_thinking_config_amended (model : String) (raw : Option GenerationConfigObj)
    (hmodel : strIncludes model "-thinking" = true) :
    ∃ g cfg b mo,
      claudeGenerationConfig model raw = some g ∧
      g.thinkingConfig = some cfg ∧
      cfg.include_thoughts = some true ∧
      cfg.thinking_budget = some b ∧ b ≠ 0 ∧
      g.maxOutputTokens.or g.max_output_tokens = some mo ∧
      (b < mo ∨ mo = 64000) ∧
      (b < 64000 → b < mo) ∧
      (raw = none → b = 16384 ∧ mo = 64000) := by
  rcases raw with _ | r
  · exact ⟨⟨some ⟨none, some 16384, none, none, none, some true⟩, some 64000, none⟩,
      ⟨none, some 16384, none, none, none, some true⟩, 16384, 64000,
      by rw [claudeGenerationConfig, if_pos hmodel]; rfl,
      rfl, rfl, rfl, by decide, rfl, Or.inl (by decide), fun _ => by decide,
      fun _ => ⟨rfl, rfl⟩⟩
  · obtain ⟨rtc, rmax, rsmax⟩ := r
    obtain ⟨hinc, b, hb0, hbud⟩ := claudeThinkingDefaults_spec (normalizeThinkingConfig rtc)
      (fun nt0 h => normalizeThinkingConfig_include_snake rtc nt0 h)
    have hfin_inc :
        (claudeFinalThinkingConfig (claudeThinkingDefaults (normalizeThinkingConfig rtc))).include_thoughts =
          some true := by
      simp [claudeFinalThinkingConfig, hinc]
    have hfin_bud :
        (claudeFinalThinkingConfig (claudeThinkingDefaults (normalizeThinkingConfig rtc))).thinking_budget =
          some b := by
      simp [claudeFinalThinkingConfig, hbud, optIntTruthy, hb0]
    have hbt : optIntTruthy (claudeThinkingDefaults (normalizeThinkingConfig rtc)).thinkingBudget = true := by
      simp [hbud, optIntTruthy, hb0]
    have heq : claudeGenerationConfig model (some ⟨rtc, rmax, rsmax⟩) =
        (if optIntTruthy (claudeThinkingDefaults (normalizeThinkingConfig rtc)).thinkingBudget &&
            (!optIntTruthy (rmax.or rsmax) ||
              decide ((rmax.or rsmax).getD 0 ≤
                (claudeThinkingDefaults (normalizeThinkingConfig rtc)).thinkingBudget.getD 0)) then
          some ⟨some (claudeFinalThinkingConfig (claudeThinkingDefaults (normalizeThinkingConfig rtc))),
                some 64000, none⟩
        else
          some ⟨some (claudeFinalThinkingConfig (claudeThinkingDefaults (normalizeThinkingConfig rtc))),
                rmax, rsmax⟩) := by
      rw [claudeGenerationConfig, if_pos hmodel]
      rfl
    rw [heq, hbt, Bool.true_and, hbud]
    by_cases hT : optIntTruthy (rmax.or rsmax) = true
    · by_cases hle : (rmax.or rsmax).getD 0 ≤ (some b).getD 0
      · rw [if_pos (by rw [hT, decide_eq_true hle]; rfl)]
        exact ⟨_, _, b, 64000, rfl, rfl, hfin_inc, hfin_bud, hb0, rfl, Or.inr rfl,
          fun h => h, fun h => Option.noConfusion h⟩
      · rw [if_neg (by rw [hT, decide_eq_false hle]; exact Bool.noConfusion)]
        have hv : ∃ v, rmax.or rsmax = some v := by
          cases hor : rmax.or rsmax with
          | none => rw [hor] at hT; exact Bool.noConfusion hT
          | some v => exact ⟨v, rfl⟩
        obtain ⟨v, hv⟩ := hv
        have hlt : b < v := by
          rw [hv] at hle
          simpa using not_le.mp hle
        refine ⟨_, _, b, v, rfl, rfl, hfin_inc, hfin_bud, hb0, ?_, Or.inl hlt,
          fun _ => hlt, fun h => Option.noConfusion h⟩
        show rmax.or rsmax = some v
        exact hv
    · rw [if_pos (by rw [Bool.eq_false_iff.mpr hT]; rfl)]
      exact ⟨_, _, b, 64000, rfl, rfl, hfin_inc, hfin_bud, hb0, rfl, Or.inr rfl,
        fun h => h, fun h => Option.noConfusion h⟩

/-- Claim C8 witness: a thinking model with no caller generation config gets
budget 16384, include_thoughts = true and ceiling 64000. -/
theorem c8_thinking_config_amended_witness :
    ∃ g cfg b mo,
      claudeGenerationConfig "claude-opus-4-5-thinking" none = some g ∧
      g.thinkingConfig = some cfg ∧
      cfg.include_thoughts = some true ∧
      cfg.thinking_budget = some b ∧ b ≠ 0 ∧
      g.maxOutputTokens.or g.max_output_tokens = some mo ∧
      (b < mo ∨ mo = 64000) ∧
      (b < 64000 → b < mo) ∧
      ((none : Option GenerationConfigObj) = none → b = 16384 ∧ mo = 64000) :=
  c8_thinking_config_amended "claude-opus-4-5-thinking" none (by decide)

/-- A cache entry stored under one family is invisible to lookups under
another family. -/
theorem getCachedSignature_other_family (f1 f2 s1 s2 t1 t2 sig : String)
    (c : SignatureCache) (hne : f1 ≠ f2) :
    getCachedSignature f2 s2 t2 (((f1, s1, t1), sig) :: c) =
      getCachedSignature f2 s2 t2 c := by
  unfold getCachedSignature
  have hb : (((f1, s1, t1), sig).1 == (f2, s2, t2)) = false := by
    rw [beq_eq_false_iff_ne]
    intro h
    exact hne (congrArg Prod.fst h)
  rw [List.find?_cons_of_neg _ (by rw [hb]; exact Bool.noConfusion)]

/-- Claim C5 (amended): a model-turn reasoning part with text t and a valid
(longer than 50 characters) signature s, transformed for the claude
family, is kept with its original signature s — the bypass sentinel is
never applied to reasoning parts — and s is cached under the claude
family with the active session and t; a subsequent transform back to the
gemini family consults only the gemini-family cache, so a reasoning part
with the same text and no signature is dropped rather than restored. -/
theorem c5_cross_family_amended (context1 context2 : TransformContext)
    (uuids : Nat → String) (cache : SignatureCache) (t s : String)
    (h1 : context1.family = "claude") (h2 : context2.family = "gemini")
    (hs : 50 < s.length) (hsess1 : context1.sessionId.isEmpty = false)
    (hmiss : getCachedSignature "gemini" context2.sessionId t cache = none) :
    ((transformClaudeRequest context1 uuids cache
        { contents := some ([⟨"model", some [⟨some t, some true, some s, none, none⟩]⟩]) }).1.request.contents =
      some ([⟨"model", some [⟨some t, some true, some s, none, none⟩]⟩])) ∧
    ((transformClaudeRequest context1 uuids cache
        { contents := some ([⟨"model", some [⟨some t, some true, some s, none, none⟩]⟩]) }).2 =
      (("claude", context1.sessionId, t), s) :: cache) ∧
    ((transformGeminiRequest context2
        ((("claude", context1.sessionId, t), s) :: cache)
        { contents := some ([⟨"model", some [⟨some t, some true, none, none, none⟩]⟩]) }).request.contents =
      some ([⟨"model", (some [] : Option (List ContentPart))⟩])) := by
  have h50 : ¬ s.length < 50 := by omega
  have hpart : processClaudePart context1 uuids ⟨cache, [], 0⟩
      ⟨some t, some true, some s, none, none⟩ =
      (some ⟨some t, some true, some s, none, none⟩,
       ⟨(("claude", context1.sessionId, t), s) :: cache, [], 0⟩) := by
    simp only [processClaudePart, processClaudeCallResponse, cacheSignature, h1, hsess1,
      if_pos rfl, decide_eq_true_eq, h50, if_false, decide_False, Bool.false_eq_true,
      ite_false, if_pos hs, Bool.not_false, ite_true]
  have hwalk : processClaudeContents context1 uuids ⟨cache, [], 0⟩
      [⟨"model", some [⟨some t, some true, some s, none, none⟩]⟩] =
      ([⟨"model", some [⟨some t, some true, some s, none, none⟩]⟩],
       ⟨(("claude", context1.sessionId, t), s) :: cache, [], 0⟩) := by
    simp only [processClaudeContents, processClaudeParts, hpart]
  have hdrop : transformGeminiModelPart context2 ((("claude", context1.sessionId, t), s) :: cache)
      ⟨some t, some true, none, none, none⟩ = none := by
    have hc : getCachedSignature context2.family context2.sessionId t
        ((("claude", context1.sessionId, t), s) :: cache) = none := by
      rw [h2, getCachedSignature_other_family "claude" "gemini" context1.sessionId
        context2.sessionId t t s cache (by decide), hmiss]
    unfold transformGeminiModelPart
    rw [if_pos rfl]
    by_cases htt : (optStrTruthy (some t) && !context2.sessionId.isEmpty) = true
    · rw [if_pos htt]
      simp [hc, optStrTruthy]
    · rw [if_neg htt]
  refine ⟨?_, ?_, ?_⟩
  · simp only [transformClaudeRequest, hwalk]
  · simp only [transformClaudeRequest, hwalk]
  · simp only [transformGeminiRequest, transformGeminiContent, Option.map_some', List.map_cons,
      List.map_nil, if_neg (by simp : ¬ ("model" : String) ≠ "model"), List.filterMap_cons,
      hdrop, List.filterMap_nil]

/-- Claim C5 witness: a concrete claude transform caches the 51-character
signature under the claude family key. -/
theorem c5_cross_family_amended_witness :
    ((transformClaudeRequest ⟨"claude-opus-4-5-thinking", "claude", "p", false, "r", "s"⟩
        (fun _ => "u") []
        { contents := some ([⟨"model",
            some [⟨some "T", some true,
                   some "AAAAAAAAAAAAAAAAAAAAAAAAAAAAAAAAAAAAAAAAAAAAAAAAAAA",
                   none, none⟩]⟩]) }).2 =
      (("claude", "s", "T"), "AAAAAAAAAAAAAAAAAAAAAAAAAAAAAAAAAAAAAAAAAAAAAAAAAAA") :: []) :=
  (c5_cross_family_amended ⟨"claude-opus-4-5-thinking", "claude", "p", false, "r", "s"⟩
    ⟨"gemini-3-pro-high", "gemini", "p", false, "r2", "s"⟩ (fun _ => "u") [] "T"
    "AAAAAAAAAAAAAAAAAAAAAAAAAAAAAAAAAAAAAAAAAAAAAAAAAAA"
    rfl rfl (by decide) rfl rfl).2.1

/-- clearIfExpired never changes the index field. -/
theorem clearIfExpired_index (now : Int) (a : ManagedAccount) :
    (clearIfExpired now a).index = a.index := by
  unfold clearIfExpired
  split <;> rfl

/-- clearIfExpired leaves a not-rate-limited account unchanged. -/
theorem clearIfExpired_of_avail (now : Int) (a : ManagedAccount)
    (h : a.isRateLimited = false) : clearIfExpired now a = a := by
  simp [clearIfExpired, h]

/-- On an all-available list, the k-th available position is k itself. -/
theorem availPos_all_avail (l : List ManagedAccount)
    (h : ∀ x ∈ l, x.isRateLimited = false) :
    ∀ k, k < l.length → availPos l k = some k := by
  induction l with
  | nil => intro k hk; simp at hk
  | cons a rest ih =>
    intro k hk
    have ha : a.isRateLimited = false := h a (List.mem_cons_self a rest)
    cases k with
    | zero => simp [availPos, ha]
    | succ k' =>
      have hk' : k' < rest.length := by simp at hk; omega
      simp [availPos, ha, ih (fun x hx => h x (List.mem_cons_of_mem a hx)) k' hk']

/-- A position produced by availPos holds a not-rate-limited account. -/
theorem availPos_sound (l : List ManagedAccount) :
    ∀ k p, availPos l k = some p → ∃ ap, l[p]? = some ap ∧ ap.isRateLimited = false := by
  induction l with
  | nil => intro k p h; exact Option.noConfusion h
  | cons a rest ih =>
    intro k p h
    unfold availPos at h
    split at h
    · cases k with
      | zero =>
        obtain rfl : (0 : Nat) = p := Option.some.inj h
        refine ⟨a, by simp, ?_⟩
        rename_i hcond
        simpa using hcond
      | succ k' =>
        rw [Option.map_eq_some'] at h
        obtain ⟨q, hq, rfl⟩ := h
        obtain ⟨ap, hap, hav⟩ := ih k' q hq
        exact ⟨ap, by simpa using hap, hav⟩
    · rw [Option.map_eq_some'] at h
      obtain ⟨q, hq, rfl⟩ := h
      obtain ⟨ap, hap, hav⟩ := ih k q hq
      exact ⟨ap, by simpa using hap, hav⟩

/-- availPos succeeds for every index below the available count. -/
theorem availPos_exists (l : List ManagedAccount) :
    ∀ k, k < countAvail l → ∃ p, availPos l k = some p := by
  induction l with
  | nil => intro k hk; simp [countAvail, List.countP_nil] at hk
  | cons a rest ih =>
    intro k hk
    by_cases ha : a.isRateLimited = false
    · cases k with
      | zero => exact ⟨0, by simp [availPos, ha]⟩
      | succ k' =>
        have hk' : k' < countAvail rest := by
          rw [countAvail, List.countP_cons] at hk
          simp [ha] at hk
          rw [countAvail]
          omega
        obtain ⟨p, hp⟩ := ih k' hk'
        exact ⟨p + 1, by simp [availPos, ha, hp]⟩
    · have ha' : a.isRateLimited = true := by
        cases hb : a.isRateLimited
        · exact absurd hb ha
        · rfl
      have hk' : k < countAvail rest := by
        rw [countAvail, List.countP_cons] at hk
        simp [ha'] at hk
        rw [countAvail]
        omega
      obtain ⟨p, hp⟩ := ih k hk'
      exact ⟨p + 1, by simp [availPos, ha', hp]⟩

/-- getNext on an all-available, canonically indexed pool returns the account
at position cursor mod N, advances the cursor, and preserves the
invariant. -/
theorem getNext_all_avail (now : Int) (m : AccountManager) (N : Nat)
    (hN : 0 < N) (hlen : m.accounts.length = N)
    (hinv : ∀ (i : Nat) (a : ManagedAccount), m.accounts[i]? = some a → a.isRateLimited = false ∧ a.index = i) :
    ∃ a, getNext now m =
        (some a,
         { m with accounts := m.accounts.set (m.currentIndex % N) a,
                  currentIndex := m.currentIndex + 1 }) ∧
      a.index = m.currentIndex % N ∧ a.isRateLimited = false ∧
      (m.accounts.set (m.currentIndex % N) a).length = N ∧
      (∀ (i : Nat) (b : ManagedAccount), (m.accounts.set (m.currentIndex % N) a)[i]? = some b →
        b.isRateLimited = false ∧ b.index = i) := by
  have hav : ∀ x ∈ m.accounts, x.isRateLimited = false := by
    intro x hx
    obtain ⟨i, hi⟩ := List.getElem?_of_mem hx
    exact (hinv i x hi).1
  have hcl : m.accounts.map (clearIfExpired now) = m.accounts := by
    rw [List.map_congr_left (fun x hx => clearIfExpired_of_avail now x (hav x hx)),
      List.map_id']
  have hcnt : countAvail m.accounts = N := by
    rw [countAvail, List.countP_eq_length.mpr (by intro x hx; simp [hav x hx]), hlen]
  have hmod : m.currentIndex % N < N := Nat.mod_lt _ hN
  have hmodlen : m.currentIndex % N < m.accounts.length := by omega
  have hgetp : m.accounts[m.currentIndex % N]? = some m.accounts[m.currentIndex % N] :=
    List.getElem?_eq_getElem hmodlen
  obtain ⟨hrl, hix⟩ := hinv _ _ hgetp
  have hap : availPos m.accounts (m.currentIndex % N) = some (m.currentIndex % N) :=
    availPos_all_avail m.accounts hav _ hmodlen
  refine ⟨{ m.accounts[m.currentIndex % N] with lastUsed := now }, ?_, ?_, ?_, ?_, ?_⟩
  · show getNext now m = _
    unfold getNext
    simp only [hcl, hcnt]
    rw [if_neg (by omega), hap]
    simp only [hgetp]
  · exact hix
  · exact hrl
  · rw [List.length_set, hlen]
  · intro i b hb
    by_cases hip : m.currentIndex % N = i
    · subst hip
      rw [List.getElem?_set_self hmodlen] at hb
      obtain rfl := Option.some.inj hb
      exact ⟨hrl, hix⟩
    · rw [List.getElem?_set_ne hip] at hb
      exact hinv i b hb

/-- Iterating getNext over an all-available, canonically indexed pool visits
positions cursor, cursor+1, ... modulo the pool size. -/
theorem getNextSeq_all_avail (now : Int) (N : Nat) (hN : 0 < N) :
    ∀ (k : Nat) (m : AccountManager), m.accounts.length = N →
      (∀ (i : Nat) (a : ManagedAccount), m.accounts[i]? = some a → a.isRateLimited = false ∧ a.index = i) →
      (getNextSeq now k m).1 =
        (List.range k).map (fun j => some ((m.currentIndex + j) % N)) := by
  intro k
  induction k with
  | zero => intro m _ _; simp [getNextSeq]
  | succ k' ih =>
    intro m hlen hinv
    obtain ⟨a, heq, hix, _, hlen', hinv'⟩ := getNext_all_avail now m N hN hlen hinv
    have hrec := ih { m with accounts := m.accounts.set (m.currentIndex % N) a,
                             currentIndex := m.currentIndex + 1 } hlen' hinv'
    show ((getNext now m).1.map (·.index) ::
      (getNextSeq now k' (getNext now m).2).1, _).1 = _
    rw [heq]
    simp only [Option.map_some']
    rw [hrec, hix, List.range_succ_eq_map]
    simp only [List.map_cons, List.map_map, Nat.add_zero]
    congr 1
    apply List.map_congr_left
    intro j _
    simp only [Function.comp]
    congr 2
    omega

/-- Claim C3 (amended): with N accounts, none rate-limited and canonically
indexed, N consecutive getNext calls return each account exactly once, in
cyclic insertion order starting at the round-robin cursor position; when
the cursor is congruent to 0 mod N (a freshly constructed pool without a
stored cursor in particular) this is exactly insertion order. -/
theorem c3_round_robin_amended (m : AccountManager) (now : Int) (N : Nat)
    (hN : 0 < N) (hlen : m.accounts.length = N)
    (hinv : ∀ (i : Nat) (a : ManagedAccount), m.accounts[i]? = some a →
      a.isRateLimited = false ∧ a.index = i) :
    (getNextSeq now N m).1 =
      (List.range N).map (fun j => some ((m.currentIndex + j) % N)) ∧
    (∀ i, i < N → ((getNextSeq now N m).1.countP (fun x => decide (x = some i)) = 1)) ∧
    (m.currentIndex % N = 0 →
      (getNextSeq now N m).1 = (List.range N).map some) := by
  have hseq := getNextSeq_all_avail now N hN N m hlen hinv
  refine ⟨hseq, ?_, ?_⟩
  · intro i hi
    rw [hseq]
    have hnd : ((List.range N).map (fun j => some ((m.currentIndex + j) % N))).Nodup := by
      refine List.Nodup.map_on ?_ (List.nodup_range N)
      intro x hx y hy hf
      have hx' : x < N := List.mem_range.mp hx
      have hy' : y < N := List.mem_range.mp hy
      have hmm : (m.currentIndex + x) % N = (m.currentIndex + y) % N := Option.some.inj hf
      have hxy : x % N = y % N := Nat.ModEq.add_left_cancel' m.currentIndex hmm
      rwa [Nat.mod_eq_of_lt hx', Nat.mod_eq_of_lt hy'] at hxy
    have hmem : some i ∈ (List.range N).map (fun j => some ((m.currentIndex + j) % N)) := by
      rw [List.mem_map]
      have h1 : m.currentIndex % N < N := Nat.mod_lt _ hN
      have hmod : m.currentIndex % N ≡ m.currentIndex [MOD N] := Nat.mod_modEq _ _
      generalize hr : m.currentIndex % N = r at h1 hmod
      refine ⟨(N - r + i) % N, List.mem_range.mpr (Nat.mod_lt _ hN), ?_⟩
      congr 1
      have e1 : (m.currentIndex + (N - r + i) % N) % N = (m.currentIndex + (N - r + i)) % N :=
        Nat.ModEq.add_left _ (Nat.mod_modEq _ _)
      have e2 : (m.currentIndex + (N - r + i)) % N = (r + (N - r + i)) % N :=
        (Nat.ModEq.add_right _ hmod).symm
      have e3 : r + (N - r + i) = N + i := by omega
      rw [e1, e2, e3, Nat.add_mod_left]
      exact Nat.mod_eq_of_lt hi
    exact List.count_eq_one_of_mem hnd hmem
  · intro h0
    rw [hseq]
    apply List.map_congr_left
    intro j hj
    have hj' : j < N := List.mem_range.mp hj
    congr 1
    calc (m.currentIndex + j) % N
        = (m.currentIndex % N + j % N) % N := Nat.add_mod _ _ _
      _ = (0 + j) % N := by rw [h0, Nat.mod_eq_of_lt hj']
      _ = j % N := by rw [Nat.zero_add]
      _ = j := Nat.mod_eq_of_lt hj'

/-- Claim C3 witness: a fresh two-account pool with cursor 0 is visited in
insertion order. -/
theorem c3_round_robin_amended_witness :
    (getNextSeq 5 2 ⟨[⟨0, "a", false, 0, 0⟩, ⟨1, "b", false, 0, 0⟩], 0, -1⟩).1 =
      (List.range 2).map some :=
  (c3_round_robin_amended ⟨[⟨0, "a", false, 0, 0⟩, ⟨1, "b", false, 0, 0⟩], 0, -1⟩ 5 2
    (by decide) rfl
    (by
      intro i a h
      rcases i with _ | _ | i
      · obtain rfl := Option.some.inj h
        exact ⟨rfl, rfl⟩
      · obtain rfl := Option.some.inj h
        exact ⟨rfl, rfl⟩
      · exact Option.noConfusion h)).2.2 rfl

/-- Claim C1: on a 429 in a pool with more than one account, a parsed
retry-after of at most 5000 ms makes the handler sleep in place for exactly
that duration and surface RETRY_SOON with the pool untouched, so the next
sticky selection reuses the same account; a longer retry-after marks the
account rate-limited for exactly that duration and surfaces RATE_LIMIT, and
the next selection, taken while the window is still open, rotates to a
different account. -/
theorem c1_rate_limit_handling (m : AccountManager) (p : Nat) (resp : UpstreamResponse)
    (now now' : Int)
    (hcount : 2 ≤ m.accounts.length) (hp : p < m.accounts.length)
    (h429 : resp.status = 429) :
    (0 ≤ parseRetryAfterMs resp → parseRetryAfterMs resp ≤ 5000 →
      handleRateLimit m.accounts.length resp m p now =
        (.retrySoon (parseRetryAfterMs resp), m) ∧
      (∀ resp' : Nat → UpstreamResponse, resp' 0 = resp →
        tryEndpointFallbacks resp' m.accounts.length m p now =
          ⟨.retrySoon (parseRetryAfterMs resp), m, [0]⟩) ∧
      (∀ cur, getCurrentAccount m = some cur → cur.isRateLimited = false →
        (getCurrentOrNext now' m).1 = some { cur with lastUsed := now' })) ∧
    (5000 < parseRetryAfterMs resp →
      handleRateLimit m.accounts.length resp m p now =
        (.rateLimit (parseRetryAfterMs resp),
         markRateLimited m p (parseRetryAfterMs resp) now) ∧
      (∃ a, m.accounts[p]? = some a ∧
        (markRateLimited m p (parseRetryAfterMs resp) now).accounts[p]? =
          some { a with isRateLimited := true,
                        rateLimitResetTime := now + parseRetryAfterMs resp }) ∧
      (m.currentAccountIndex = (p : Int) →
       now' ≤ now + parseRetryAfterMs resp →
       (∀ (i : Nat) (a : ManagedAccount), m.accounts[i]? = some a → a.index = i) →
       (∃ q aq, q < m.accounts.length ∧ q ≠ p ∧ m.accounts[q]? = some aq ∧
          aq.isRateLimited = false) →
       ∃ b, (getCurrentOrNext now' (markRateLimited m p (parseRetryAfterMs resp) now)).1 =
          some b ∧ b.isRateLimited = false ∧ b.index ≠ p)) := by
  obtain ⟨a0, hp0⟩ : ∃ a, m.accounts[p]? = some a := ⟨_, List.getElem?_eq_getElem hp⟩
  constructor
  · intro hr0 hr5
    have ha1 : handleRateLimit m.accounts.length resp m p now =
        (.retrySoon (parseRetryAfterMs resp), m) := by
      unfold handleRateLimit
      rw [if_neg (by omega), if_pos hr5]
      have hmax : sleepWithBackoffTotal (parseRetryAfterMs resp) = parseRetryAfterMs resp := by
        unfold sleepWithBackoffTotal
        omega
      rw [hmax]
    refine ⟨ha1, ?_, ?_⟩
    · intro resp' hresp'
      show runEndpointsAux resp' m.accounts.length m p now [0, 1, 2] none = _
      rw [runEndpointsAux, if_pos (by rw [hresp', h429]), hresp', ha1]
    · intro cur hcur hcav
      simp only [getCurrentOrNext, hcur]
      simp [hcav]
  · intro hr5
    have hb1 : handleRateLimit m.accounts.length resp m p now =
        (.rateLimit (parseRetryAfterMs resp),
         markRateLimited m p (parseRetryAfterMs resp) now) := by
      unfold handleRateLimit
      rw [if_neg (by omega), if_neg (by omega)]
    have hm' : markRateLimited m p (parseRetryAfterMs resp) now =
        ⟨m.accounts.set p
          { a0 with isRateLimited := true,
                    rateLimitResetTime := now + parseRetryAfterMs resp },
         m.currentIndex, m.currentAccountIndex⟩ := by
      unfold markRateLimited
      rw [hp0]
    refine ⟨hb1, ⟨a0, hp0, ?_⟩, ?_⟩
    · rw [hm']
      exact List.getElem?_set_self hp
    · intro hcur hnw hidx ⟨q, aq, hqlen, hqp, hq, hqav⟩
      set amark : ManagedAccount :=
        { a0 with isRateLimited := true,
                  rateLimitResetTime := now + parseRetryAfterMs resp } with hamark
      have hsetlen : (m.accounts.set p amark).length = m.accounts.length :=
        List.length_set m.accounts p amark
      have hgetp' : (m.accounts.set p amark)[p]? = some amark :=
        List.getElem?_set_self (by omega)
      have hga : getCurrentAccount ⟨m.accounts.set p amark, m.currentIndex,
          m.currentAccountIndex⟩ = some amark := by
        unfold getCurrentAccount
        rw [hcur]
        rw [if_pos ⟨by omega, by rw [hsetlen]; exact_mod_cast hp⟩]
        simpa using hgetp'
      -- the cleared view of the marked pool
      have hclp : ((m.accounts.set p amark).map (clearIfExpired now'))[p]? = some amark := by
        rw [List.getElem?_map, hgetp']
        show some (clearIfExpired now' amark) = some amark
        unfold clearIfExpired
        rw [if_neg (by simp [hamark]; omega)]
      have hq' : (m.accounts.set p amark)[q]? = some aq := by
        rw [List.getElem?_set_ne (fun h => hqp h.symm)]
        exact hq
      have hclq : ((m.accounts.set p amark).map (clearIfExpired now'))[q]? = some aq := by
        rw [List.getElem?_map, hq']
        show some (clearIfExpired now' aq) = some aq
        rw [clearIfExpired_of_avail now' aq hqav]
      have hcnt : countAvail ((m.accounts.set p amark).map (clearIfExpired now')) ≠ 0 := by
        have hpos : 0 < countAvail ((m.accounts.set p amark).map (clearIfExpired now')) := by
          rw [countAvail, List.countP_pos_iff]
          exact ⟨aq, List.getElem?_mem hclq, by simp [hqav]⟩
        omega
      obtain ⟨p', hp'⟩ := availPos_exists _ _
        (Nat.mod_lt m.currentIndex (Nat.pos_of_ne_zero hcnt))
      obtain ⟨ap, hap, hapav⟩ := availPos_sound _ _ _ hp'
      have hp'p : p' ≠ p := by
        intro hcontra
        subst hcontra
        rw [hap] at hclp
        obtain rfl := Option.some.inj hclp
        simp [hamark] at hapav
      have hgn : getNext now' ⟨m.accounts.set p amark, m.currentIndex,
          m.currentAccountIndex⟩ =
          (some { ap with lastUsed := now' },
           ⟨((m.accounts.set p amark).map (clearIfExpired now')).set p'
              { ap with lastUsed := now' },
            m.currentIndex + 1, m.currentAccountIndex⟩) := by
        unfold getNext
        rw [if_neg hcnt, hp']
        simp only [hap]
      have hapidx : ap.index = p' := by
        have hmap := hap
        rw [List.getElem?_map, Option.map_eq_some'] at hmap
        obtain ⟨o, ho, hoe⟩ := hmap
        rw [List.getElem?_set_ne (fun h => hp'p h.symm)] at ho
        have hoi : o.index = p' := hidx p' o ho
        rw [← hoe, clearIfExpired_index, hoi]
      refine ⟨{ ap with lastUsed := now' }, ?_, hapav, ?_⟩
      · rw [hm']
        have h1 : (amark.isRateLimited = false) ↔ False := by simp [hamark]
        have h2 : (now' > amark.rateLimitResetTime) ↔ False := by
          simp only [hamark]
          constructor
          · intro hgt
            exact absurd hnw (by omega)
          · exact False.elim
        simp only [getCurrentOrNext, hga, h1, h2, if_false, hgn]
      · show ap.index ≠ p
        rw [hapidx]
        exact hp'p

/-- Claim C1 witness: in a concrete two-account pool, a 429 with
retry-after-ms 3000 yields RETRY_SOON sleeping 3000 ms with the pool
untouched, while retry-after-ms 60000 marks the account and the next
selection rotates to the other account. -/
theorem c1_rate_limit_handling_witness :
    (handleRateLimit 2 ⟨429, some 3000, none⟩
        ⟨[⟨0, "a", false, 0, 0⟩, ⟨1, "b", false, 0, 0⟩], 0, 0⟩ 0 100 =
      (.retrySoon 3000, ⟨[⟨0, "a", false, 0, 0⟩, ⟨1, "b", false, 0, 0⟩], 0, 0⟩)) ∧
    (handleRateLimit 2 ⟨429, some 60000, none⟩
        ⟨[⟨0, "a", false, 0, 0⟩, ⟨1, "b", false, 0, 0⟩], 0, 0⟩ 0 100 =
      (.rateLimit 60000,
       markRateLimited ⟨[⟨0, "a", false, 0, 0⟩, ⟨1, "b", false, 0, 0⟩], 0, 0⟩ 0 60000 100)) ∧
    (∃ b, (getCurrentOrNext 200
        (markRateLimited ⟨[⟨0, "a", false, 0, 0⟩, ⟨1, "b", false, 0, 0⟩], 0, 0⟩ 0 60000 100)).1 =
      some b ∧ b.isRateLimited = false ∧ b.index ≠ 0) := by
  refine ⟨?_, ?_, ?_⟩
  · exact ((c1_rate_limit_handling ⟨[⟨0, "a", false, 0, 0⟩, ⟨1, "b", false, 0, 0⟩], 0, 0⟩ 0
      ⟨429, some 3000, none⟩ 100 200 (by decide) (by decide) rfl).1 (by decide) (by decide)).1
  · exact ((c1_rate_limit_handling ⟨[⟨0, "a", false, 0, 0⟩, ⟨1, "b", false, 0, 0⟩], 0, 0⟩ 0
      ⟨429, some 60000, none⟩ 100 200 (by decide) (by decide) rfl).2 (by decide)).1
  · exact ((c1_rate_limit_handling ⟨[⟨0, "a", false, 0, 0⟩, ⟨1, "b", false, 0, 0⟩], 0, 0⟩ 0
      ⟨429, some 60000, none⟩ 100 200 (by decide) (by decide) rfl).2 (by decide)).2.2
      rfl (by decide)
      (by
        intro i a h
        rcases i with _ | _ | i
        · obtain rfl := Option.some.inj h
          rfl
        · obtain rfl := Option.some.inj h
          rfl
        · exact Option.noConfusion h)
      ⟨1, ⟨1, "b", false, 0, 0⟩, by decide, by decide, rfl, rfl⟩
